import Mathlib

/-!
Verification development for the dynamiq agent core
(src/dynamiq/nodes/agents/base.py and src/dynamiq/nodes/agents/exceptions.py).

The Python code is shallowly embedded: Python strings become `List Char`
(wrapped in `String` at the interface), Python dicts become insertion-ordered
association lists with in-place update semantics, exceptions become an
explicit `Except` with an `AgentError` value carrying the `recoverable` flag
of `RecoverableAgentException`, and the regular expressions of the source are
compiled by hand into total functions whose backtracking order follows the
Python `re` semantics (greedy `\s*`, lazy `.*?`, leftmost match).
-/

namespace Dynamiq

/-! Python string helpers.

`isPySpace` is the ASCII core of the whitespace class used both by
`str.strip()` and by the regex class `\s`.  The agent texts are ASCII, so the
extra unicode whitespace code points are not modelled. -/

def isPySpace (c : Char) : Bool :=
  c == ' ' || c == '\t' || c == '\n' || c == '\r' || c == '\x0b' || c == '\x0c'

/-- Python `str.strip()` with no argument: drop whitespace from both ends. -/
def pyStrip (s : List Char) : List Char :=
  ((s.dropWhile isPySpace).reverse.dropWhile isPySpace).reverse

/-! Python dict model: an insertion-ordered association list.  `dictUpd`
models `d[k] = v` (an existing key keeps its position, a new key is appended),
`dictGet` models `d.get(k)`, and `dictUpdAll` models `d.update(kvs)`. -/

def dictUpd {α : Type} (d : List (String × α)) (k : String) (v : α) :
    List (String × α) :=
  match d with
  | [] => [(k, v)]
  | (k1, v1) :: rest => if k1 = k then (k1, v) :: rest else (k1, v1) :: dictUpd rest k v

def dictGet {α : Type} (d : List (String × α)) (k : String) : Option α :=
  match d with
  | [] => none
  | (k1, v1) :: rest => if k1 = k then some v1 else dictGet rest k

def dictUpdAll {α : Type} (d : List (String × α)) (kvs : List (String × α)) :
    List (String × α) :=
  kvs.foldl (fun acc kv => dictUpd acc kv.1 kv.2) d

/-- Substring test: `hasSub pat s` is true iff `pat` occurs in `s`
(models the Python `pat in s` test). -/
def hasSub (pat : List Char) : List Char → Bool
  | [] => pat.isEmpty
  | c :: cs => pat.isPrefixOf (c :: cs) || hasSub pat cs

/-- Split at the first occurrence of `pat`: returns the part before the
occurrence and the part after it (the occurrence itself removed). -/
def splitFirst (pat : List Char) : List Char → Option (List Char × List Char)
  | [] => if pat.isPrefixOf ([] : List Char) then some ([], []) else none
  | c :: cs =>
    if pat.isPrefixOf (c :: cs) then some ([], (c :: cs).drop pat.length)
    else
      match splitFirst pat cs with
      | some (b, a) => some (c :: b, a)
      | none => none

/-! Hand compilation of the `_parse_action` regex of base.py:

    re.search(r"Action:\s*(.*?)\nAction Input:\s*(({\n)?.*?)(?:[^}]*$)",
              output, re.DOTALL)

Pieces, in order:
  literal "Action:", greedy `\s*`, lazy group 1 `(.*?)`,
  literal newline + "Action Input:", greedy `\s*`,
  group 2 `(({\n)?.*?)` (greedy optional literal then a lazy star),
  and the uncaptured trailer `[^}]*$`.

With DOTALL the dot crosses newlines.  The trailer `[^}]*$` matches a
remainder iff the remainder contains no brace character: `[^}]*` cannot step
over a brace, and `$` (end of string, or just before one final newline) is
reachable exactly when no brace is left.  Consequently the part of the
pattern after the literal "\nAction Input:" matches every remainder, so the
lazy group 1 always stops at the first occurrence of "\nAction Input:" that
the greedy `\s*` before it leaves reachable, and the lazy star of group 2
stops immediately after the last brace of the remainder (or at once when no
brace remains). -/

def actionMarker : List Char := ("Action:").data

def inputMarker : List Char := '\n' :: ("Action Input:").data

/-- Lazy star followed by the trailer `[^}]*$`: the shortest prefix whose
complement holds no brace, that is everything up to and including the last
closing brace (empty when there is none). -/
def lazyUpToTail (s : List Char) : List Char :=
  (s.reverse.dropWhile (fun c => !(c == '}'))).reverse

/-- Group 2 of the regex, applied to the text after "\nAction Input:":
greedy `\s*`, then the greedy optional literal brace-newline, then the lazy
star cut by the trailer. -/
def group2Of (rest : List Char) : List Char :=
  let s2 := rest.dropWhile isPySpace
  if ('{' :: '\n' :: ([] : List Char)).isPrefixOf s2 then
    '{' :: '\n' :: lazyUpToTail (s2.drop 2)
  else lazyUpToTail s2

/-- Backtracking of the greedy `\s*` before group 1: try the longest
whitespace consumption first, and at each choice let the lazy group 1 end at
the first occurrence of "\nAction Input:". -/
def tryWs (s : List Char) : Nat → Option (List Char × List Char)
  | 0 => splitFirst inputMarker s
  | Nat.succ k =>
    match splitFirst inputMarker (s.drop (Nat.succ k)) with
    | some r => some r
    | none => tryWs s k

/-- Match of `\s*(.*?)\nAction Input:` against `s` (the text after the
literal "Action:"), returning group 1 and the remainder after the marker. -/
def group1Split (s : List Char) : Option (List Char × List Char) :=
  tryWs s ((s.takeWhile isPySpace).length)

/-- Leftmost search of the whole pattern: scan the start positions from the
left; a position matches iff the literal "Action:" sits there and
"\nAction Input:" occurs somewhere after it.  Returns groups 1 and 2. -/
def reSearch : List Char → Option (List Char × List Char)
  | [] => none
  | c :: cs =>
    if actionMarker.isPrefixOf (c :: cs) then
      match group1Split ((c :: cs).drop actionMarker.length) with
      | some (g1, rest) => some (g1, group2Of rest)
      | none => reSearch cs
    else reSearch cs

/-- Python `s.replace(pat, "")` for a nonempty `pat`: delete the
non-overlapping occurrences left to right. -/
def replaceAll (pat : List Char) (s : List Char) : List Char :=
  match pat, s with
  | _, [] => []
  | [], s => s
  | p :: ps, c :: cs =>
    if (p :: ps).isPrefixOf (c :: cs) then
      replaceAll (p :: ps) ((c :: cs).drop (p :: ps).length)
    else c :: replaceAll (p :: ps) cs
termination_by s.length
decreasing_by
  all_goals simp [List.length_drop]
  omega

def fenceJsonPat : List Char := ("```json").data

def fencePat : List Char := ("```").data

/-- Fenced-code stripping of `_parse_action`: when the fence marker occurs in
the captured input, delete every "```json" and every "```" and strip. -/
def stripFences (s : List Char) : List Char :=
  if hasSub fenceJsonPat s then pyStrip (replaceAll fencePat (replaceAll fenceJsonPat s))
  else s

/-! Model of Python `json.loads` as used by `_parse_action`.

`PyValue` is the decoded Python object: JSON null becomes `PyValue.none`,
objects become insertion-ordered association lists (a duplicated key keeps
the first position and the last value, as `dict(pairs)` does), and a float
is kept as the literal that denoted it (the embedding states nothing about
IEEE arithmetic; two distinct literals of one float value stay distinct).
Deliberate divergence: a lone escaped surrogate in a string literal makes
the model fail where Python would keep the surrogate, because a Lean `Char`
is a unicode scalar value. -/

inductive PyValue where
  | none
  | bool (b : Bool)
  | int (n : Int)
  | float (lit : String)
  | str (s : String)
  | list (xs : List PyValue)
  | dict (entries : List (String × PyValue))

/-- Whitespace skipped between JSON tokens (the set used by the decoder). -/
def isJsonWs (c : Char) : Bool :=
  c == ' ' || c == '\t' || c == '\n' || c == '\r'

def skipWs (s : List Char) : List Char := s.dropWhile isJsonWs

def hexVal (c : Char) : Option Nat :=
  if c.isDigit then some (c.toNat - 48)
  else if 'a' ≤ c ∧ c ≤ 'f' then some (c.toNat - 87)
  else if 'A' ≤ c ∧ c ≤ 'F' then some (c.toNat - 55)
  else none

/-- JSON string body scanner (strict mode), positioned after the opening
quote: plain characters from 0x20 up, the short escapes, and 4-digit unicode
escapes with surrogate-pair combination. -/
def parseStrGo (acc : List Char) : List Char → Option (String × List Char)
  | [] => none
  | '"' :: rest => some (String.mk acc.reverse, rest)
  | '\\' :: rest =>
    match rest with
    | [] => none
    | '"' :: r => parseStrGo ('"' :: acc) r
    | '\\' :: r => parseStrGo ('\\' :: acc) r
    | '/' :: r => parseStrGo ('/' :: acc) r
    | 'b' :: r => parseStrGo ('\x08' :: acc) r
    | 'f' :: r => parseStrGo ('\x0c' :: acc) r
    | 'n' :: r => parseStrGo ('\n' :: acc) r
    | 'r' :: r => parseStrGo ('\r' :: acc) r
    | 't' :: r => parseStrGo ('\t' :: acc) r
    | 'u' :: h1 :: h2 :: h3 :: h4 :: r =>
      match hexVal h1, hexVal h2, hexVal h3, hexVal h4 with
      | some a, some b, some c, some d =>
        let n := ((a * 16 + b) * 16 + c) * 16 + d
        if 0xd800 ≤ n ∧ n ≤ 0xdbff then
          match r with
          | '\\' :: 'u' :: g1 :: g2 :: g3 :: g4 :: r2 =>
            match hexVal g1, hexVal g2, hexVal g3, hexVal g4 with
            | some a2, some b2, some c2, some d2 =>
              let m := ((a2 * 16 + b2) * 16 + c2) * 16 + d2
              if 0xdc00 ≤ m ∧ m ≤ 0xdfff then
                parseStrGo (Char.ofNat (0x10000 + (n - 0xd800) * 0x400 + (m - 0xdc00)) :: acc) r2
              else Option.none
            | _, _, _, _ => Option.none
          | _ => Option.none
        else if 0xdc00 ≤ n ∧ n ≤ 0xdfff then Option.none
        else parseStrGo (Char.ofNat n :: acc) r
      | _, _, _, _ => Option.none
    | _ => Option.none
  | c :: rest => if c.toNat < 0x20 then Option.none else parseStrGo (c :: acc) rest

def digitsToNat (ds : List Char) : Nat :=
  ds.foldl (fun n c => n * 10 + (c.toNat - 48)) 0

/-- JSON number token, following the decoder regex
`(-?(0|[1-9][0-9]*))(\.[0-9]+)?([eE][-+]?[0-9]+)?`: the longest match is
taken and anything after it is left for the caller; an integer-only match
decodes to a Python int, otherwise to a float kept as its literal. -/
def parseNumber (s : List Char) : Option (PyValue × List Char) :=
  let signAndRest : List Char × List Char :=
    match s with
    | '-' :: r => (['-'], r)
    | _ => ([], s)
  let sign := signAndRest.1
  let s1 := signAndRest.2
  match s1 with
  | [] => Option.none
  | c0 :: _ =>
    if c0.isDigit then
      let intDigits := match s1 with
        | '0' :: _ => ['0']
        | _ => s1.takeWhile Char.isDigit
      let r1 := s1.drop intDigits.length
      let fracDigits := match r1 with
        | '.' :: r2 =>
          let f := r2.takeWhile Char.isDigit
          if f.isEmpty then [] else '.' :: f
        | _ => []
      let r2 := r1.drop fracDigits.length
      let expDigits := match r2 with
        | e :: r3 =>
          if e == 'e' || e == 'E' then
            let sgnAndRest : List Char × List Char :=
              match r3 with
              | '+' :: r5 => (['+'], r5)
              | '-' :: r5 => (['-'], r5)
              | _ => ([], r3)
            let ds := sgnAndRest.2.takeWhile Char.isDigit
            if ds.isEmpty then [] else e :: (sgnAndRest.1 ++ ds)
          else []
        | [] => []
      let rest := r2.drop expDigits.length
      if fracDigits.isEmpty ∧ expDigits.isEmpty then
        some (PyValue.int (if sign.isEmpty then (digitsToNat intDigits : Int)
                           else -(digitsToNat intDigits : Int)), rest)
      else
        some (PyValue.float (String.mk (sign ++ intDigits ++ fracDigits ++ expDigits)), rest)
    else Option.none

/-- Parser mode: a value, the items of an object after the opening quote of
the next key, or the items of an array before the next value. -/
inductive PMode where
  | value
  | objItems (acc : List (String × PyValue))
  | arrItems (acc : List PyValue)

/-- Recursive descent of the decoder.  The fuel only bounds the nesting
depth; every recursive call consumes at least one character, so a fuel of
length plus one never runs out. -/
def parseCore : Nat → PMode → List Char → Option (PyValue × List Char)
  | 0, _, _ => Option.none
  | Nat.succ fuel, PMode.value, s =>
    match s with
    | '"' :: rest =>
      match parseStrGo [] rest with
      | some (sv, r) => some (PyValue.str sv, r)
      | Option.none => Option.none
    | '{' :: rest =>
      match skipWs rest with
      | '}' :: r => some (PyValue.dict [], r)
      | '"' :: r => parseCore fuel (PMode.objItems []) r
      | _ => Option.none
    | '[' :: rest =>
      match skipWs rest with
      | ']' :: r => some (PyValue.list [], r)
      | t => parseCore fuel (PMode.arrItems []) t
    | 'n' :: 'u' :: 'l' :: 'l' :: rest => some (PyValue.none, rest)
    | 't' :: 'r' :: 'u' :: 'e' :: rest => some (PyValue.bool true, rest)
    | 'f' :: 'a' :: 'l' :: 's' :: 'e' :: rest => some (PyValue.bool false, rest)
    | 'N' :: 'a' :: 'N' :: rest => some (PyValue.float "NaN", rest)
    | 'I' :: 'n' :: 'f' :: 'i' :: 'n' :: 'i' :: 't' :: 'y' :: rest =>
      some (PyValue.float "Infinity", rest)
    | '-' :: 'I' :: 'n' :: 'f' :: 'i' :: 'n' :: 'i' :: 't' :: 'y' :: rest =>
      some (PyValue.float "-Infinity", rest)
    | _ => parseNumber s
  | Nat.succ fuel, PMode.objItems acc, s =>
    match parseStrGo [] s with
    | Option.none => Option.none
    | some (key, r1) =>
      match skipWs r1 with
      | ':' :: r2 =>
        match parseCore fuel PMode.value (skipWs r2) with
        | Option.none => Option.none
        | some (v, r3) =>
          match skipWs r3 with
          | '}' :: r4 => some (PyValue.dict (dictUpdAll [] (acc ++ [(key, v)])), r4)
          | ',' :: r4 =>
            match skipWs r4 with
            | '"' :: r5 => parseCore fuel (PMode.objItems (acc ++ [(key, v)])) r5
            | _ => Option.none
          | _ => Option.none
      | _ => Option.none
  | Nat.succ fuel, PMode.arrItems acc, s =>
    match parseCore fuel PMode.value s with
    | Option.none => Option.none
    | some (v, r1) =>
      match skipWs r1 with
      | ']' :: r2 => some (PyValue.list (acc ++ [v]), r2)
      | ',' :: r2 => parseCore fuel (PMode.arrItems (acc ++ [v])) (skipWs r2)
      | _ => Option.none

/-- Python `json.loads`: skip leading whitespace, read one value, then
require only whitespace to remain (the Extra data check). -/
def jsonLoads (s : List Char) : Option PyValue :=
  let t := skipWs s
  match parseCore (t.length + 1) PMode.value t with
  | some (v, rest) => if (skipWs rest).isEmpty then some v else Option.none
  | Option.none => Option.none

/-! Errors of exceptions.py.  `RecoverableAgentException` carries a
`recoverable` flag defaulting to true; a plain `ValueError` or `KeyError`
has no such flag and is fatal to the loop, modelled as `recoverable = false`. -/

inductive AgentErrorKind where
  | actionParsing
  | unknownTool
  | toolExecution
  | invalidAction
  | valueError
  | keyError
deriving DecidableEq

structure AgentError where
  kind : AgentErrorKind
  message : String
  recoverable : Bool
deriving DecidableEq

/-- Error raised by `_parse_action` on both failure paths (the message is the
concatenation of the adjacent string literals of the source). -/
def actionParsingError : AgentError :=
  { kind := AgentErrorKind.actionParsing
  , message := "Error: Could not parse action and action input. Please rewrite in the appropriate Action/Action Input format with action input as a valid dictionary Make sure all quotes are present."
  , recoverable := true }

/-- Embedding of `Agent._parse_action`: run the regex search, strip group 1
into the action name, strip group 2, remove code fences when present, decode
as JSON; any failure raises the recoverable parsing error. -/
def parse_action (output : String) : Except AgentError (String × PyValue) :=
  match reSearch output.data with
  | Option.none => Except.error actionParsingError
  | some (g1, g2) =>
    let action := pyStrip g1
    let actionInput := stripFences (pyStrip g2)
    match jsonLoads actionInput with
    | some v => Except.ok (String.mk action, v)
    | Option.none => Except.error actionParsingError

def answerMarker : List Char := ("Answer:").data

/-- Embedding of `Agent._extract_final_answer`: the regex
`Answer:\s*(.*)` with DOTALL takes everything after the first occurrence of
the marker (the whitespace eaten by `\s*` is removed again by the final
`strip`), and the empty string is returned when the marker is absent. -/
def extract_final_answer (output : String) : String :=
  match splitFirst answerMarker output.data with
  | some (_, rest) => String.mk (pyStrip rest)
  | Option.none => ""

/-! Prompt assembly (`Agent.generate_prompt`).

The pieces of the Python implementation are modelled one by one:
`str.format` restricted to plain named fields and doubled-brace escapes (the
only template syntax the prompt blocks use), `textwrap.dedent`,
`str.splitlines`, `str.strip`, `str.split()` and the joins.  A missing
variable makes `str.format` raise `KeyError`; formatting therefore returns
an `Option`, with `none` for the fatal error. -/

/-- Python `str.upper` on the ASCII block names used by the agent. -/
def pyUpper (s : String) : String := String.mk (s.data.map Char.toUpper)

/-- Python `str.format(**vars)` for templates made of literal text, doubled
braces and plain named fields: a named field is replaced by the value bound
to it, an unknown name or a stray brace fails (KeyError and ValueError both
abort the render). -/
def pyFormatGo (vars : List (String × String)) : Nat → List Char → Option (List Char)
  | 0, _ => Option.none
  | Nat.succ _, [] => some []
  | Nat.succ fuel, '{' :: '{' :: rest =>
    match pyFormatGo vars fuel rest with
    | some t => some ('{' :: t)
    | Option.none => Option.none
  | Nat.succ fuel, '}' :: '}' :: rest =>
    match pyFormatGo vars fuel rest with
    | some t => some ('}' :: t)
    | Option.none => Option.none
  | Nat.succ fuel, '{' :: rest =>
    let nm := rest.takeWhile (fun c => !(c == '}'))
    match rest.drop nm.length with
    | '}' :: r2 =>
      match dictGet vars (String.mk nm) with
      | some v =>
        match pyFormatGo vars fuel r2 with
        | some t => some (v.data ++ t)
        | Option.none => Option.none
      | Option.none => Option.none
    | _ => Option.none
  | Nat.succ _, '}' :: _ => Option.none
  | Nat.succ fuel, c :: rest =>
    match pyFormatGo vars fuel rest with
    | some t => some (c :: t)
    | Option.none => Option.none

def pyFormat (template : String) (vars : List (String × String)) : Option String :=
  match pyFormatGo vars (template.data.length + 1) template.data with
  | some t => some (String.mk t)
  | Option.none => Option.none

def splitOnNl : List Char → List (List Char)
  | [] => [[]]
  | '\n' :: rest => [] :: splitOnNl rest
  | c :: rest =>
    match splitOnNl rest with
    | [] => [[c]]
    | l :: ls => (c :: l) :: ls

def isIndentChar (c : Char) : Bool := c == ' ' || c == '\t'

def commonPrefixOf : List Char → List Char → List Char
  | x :: xs, y :: ys => if x = y then x :: commonPrefixOf xs ys else []
  | _, _ => []

/-- Python `textwrap.dedent`: empty the lines holding only indent
characters, compute the margin as the common indent of the remaining
non-blank lines, and remove that margin from every line that starts with
it. -/
def dedentChars (s : List Char) : List Char :=
  let lines := splitOnNl s
  let lines1 := lines.map (fun l => if l ≠ [] ∧ l.all isIndentChar then [] else l)
  let indents := (lines1.filter (fun l => l.any (fun c => !(isIndentChar c)))).map
      (fun l => l.takeWhile isIndentChar)
  let margin := match indents with
    | [] => ([] : List Char)
    | i :: is => is.foldl commonPrefixOf i
  List.intercalate ['\n'] (lines1.map (fun l => if margin.isPrefixOf l then l.drop margin.length else l))

/-- Line boundaries recognised by Python `str.splitlines`. -/
def isLineBreak (c : Char) : Bool :=
  c == '\n' || c == '\r' || c == '\x0b' || c == '\x0c' ||
  c == '\x1c' || c == '\x1d' || c == '\x1e' || c == '\x85' ||
  c == '\u2028' || c == '\u2029'

def pySplitlinesGo : Nat → List Char → List (List Char)
  | 0, _ => []
  | Nat.succ fuel, s =>
    match s with
    | [] => []
    | _ =>
      let line := s.takeWhile (fun c => !(isLineBreak c))
      match s.drop line.length with
      | [] => [line]
      | '\r' :: '\n' :: r => line :: pySplitlinesGo fuel r
      | _ :: r => line :: pySplitlinesGo fuel r

/-- Python `str.splitlines` (a trailing terminator adds no empty line and a
carriage return plus newline counts as one boundary). -/
def pySplitlines (s : List Char) : List (List Char) := pySplitlinesGo (s.length + 1) s

def pyWordsGo : Nat → List Char → List (List Char)
  | 0, _ => []
  | Nat.succ fuel, s =>
    let s1 := s.dropWhile isPySpace
    match s1 with
    | [] => []
    | _ =>
      let w := s1.takeWhile (fun c => !(isPySpace c))
      w :: pyWordsGo fuel (s1.drop w.length)

/-- Python `str.split()` with no argument: the whitespace-separated words. -/
def pyWords (l : List Char) : List (List Char) := pyWordsGo (l.length + 1) l

/-- Post-processing of `generate_prompt`: dedent, strip every line and drop
the blank ones, rejoin, then collapse the inner whitespace of each line to
single spaces. -/
def postProcess (p : List Char) : List Char :=
  let d := dedentChars p
  let stripped := ((pySplitlines d).map pyStrip).filter (fun l => !l.isEmpty)
  let joined := List.intercalate ['\n'] stripped
  List.intercalate ['\n'] ((splitOnNl joined).map (fun l => List.intercalate [' '] (pyWords l)))

/-- Block loop of `generate_prompt`: iterate the configured blocks in
insertion order, keep a block when no name filter is given or the filter
holds its name, and when its configured content is nonempty; format the kept
content against the merged variables and append the upper-cased header, the
content and a blank line.  A formatting failure aborts the whole render. -/
def renderBlocks (blocks : List (String × String)) (temp : List (String × String))
    (blockNames : Option (List String)) : Option String :=
  match blocks with
  | [] => some ""
  | (b, content) :: rest =>
    if (match blockNames with | Option.none => true | some ns => ns.contains b) && !(content == "") then
      match pyFormat content temp with
      | some f =>
        match renderBlocks rest temp blockNames with
        | some r => some (pyUpper b ++ ":\n" ++ f ++ "\n\n" ++ r)
        | Option.none => Option.none
      | Option.none => Option.none
    else renderBlocks rest temp blockNames

/-- Embedding of `Agent.generate_prompt`: copy the stored variables, let the
call-time keyword arguments win on collision, render the blocks and
post-process.  `none` models the fatal KeyError of a missing variable. -/
def generate_prompt (blocks : List (String × String)) (vars : List (String × String))
    (blockNames : Option (List String)) (kwargs : List (String × String)) : Option String :=
  let temp := dictUpdAll vars kwargs
  match renderBlocks blocks temp blockNames with
  | some p => some (String.mk (postProcess p.data))
  | Option.none => Option.none

/-! Agent state and the execute flow.

The mutable attributes touched by the embedded methods are gathered in
`AgentState`.  Values of prompt variables and of input data are modelled as
strings (the Python code may hold arbitrary values and formats them through
`str`).  The run-dependency entries (`NodeDependency(...).to_dict()`) are
modelled by the name of the producing node. -/

structure AgentState where
  promptBlocks : List (String × String)
  promptVariables : List (String × String)
  intermediateSteps : List (Nat × PyValue)
  runDepends : List String

/-- Embedding of `Agent.reset_run_state`: clear the step collection and the
dependency chain and nothing else. -/
def reset_run_state (st : AgentState) : AgentState :=
  { st with intermediateSteps := [], runDepends := [] }

/-- Embedding of the `generate_prompt` method call on an agent: the method
reads the blocks and the stored variables and mutates only a local copy of
the variables, so the agent state comes back unchanged. -/
def generate_prompt_method (st : AgentState) (blockNames : Option (List String))
    (kwargs : List (String × String)) : Option String × AgentState :=
  (generate_prompt st.promptBlocks st.promptVariables blockNames kwargs, st)

/-- Fatal error for a failed interpolation (`KeyError` has no recoverable
flag and aborts the run). -/
def keyErrorFatal : AgentError :=
  { kind := AgentErrorKind.keyError, message := "KeyError", recoverable := false }

/-- Embedding of `Agent.execute` for the single-shot base agent: reset the
run state, merge the input data into the stored prompt variables, render the
full prompt (no block filter), invoke the model on it and return the
execution result together with the step collection.  The `llm` argument
abstracts a model collaborator that reports success; after the model call
the dependency chain holds the model node. -/
def agent_execute (st : AgentState) (llm : String → String)
    (inputData : List (String × String)) :
    Except AgentError (String × List (Nat × PyValue)) × AgentState :=
  let st0 := reset_run_state st
  let st1 := { st0 with promptVariables := dictUpdAll st0.promptVariables inputData }
  match generate_prompt st1.promptBlocks st1.promptVariables Option.none [] with
  | some p =>
    let st2 := { st1 with runDepends := ["llm"] }
    (Except.ok (llm p, st2.intermediateSteps), st2)
  | Option.none => (Except.error keyErrorFatal, st1)

/-! Tools and the dispatcher. -/

structure Tool where
  name : String
  description : String
deriving DecidableEq

/-- Embedding of the `tool_description` property. -/
def tool_description (tools : List Tool) : String :=
  if tools.isEmpty then ""
  else String.intercalate "\n"
    (tools.map (fun t => t.name ++ ": " ++ String.mk (pyStrip t.description.data)))

/-- Embedding of the `tool_by_names` property: a dict comprehension over the
configured tool list, so a later entry with an equal name overwrites an
earlier one; the registry is derived anew from the list at every use. -/
def tool_by_names (tools : List Tool) : List (String × Tool) :=
  tools.foldl (fun d t => dictUpd d t.name t) []

/-- Part of the unknown-tool message after the interpolated action name
(inside the Python literal two escaped line breaks splice the indentation of
the continuation lines, 17 and 18 spaces, into the text). -/
def unknownToolMessageTail : String :=
  " Use only available tools and provide only its name in action field." ++
  String.mk (List.replicate 17 ' ') ++
  "Do not provide any aditional reasoning in action field." ++
  String.mk (List.replicate 18 ' ') ++
  "Reiterate and provide proper value for action field or say that you cannot answer the question."

/-- Message of `AgentUnknownToolException`. -/
def unknownToolMessage (action : String) : String :=
  "Unknown tool: " ++ action ++ unknownToolMessageTail

/-- Embedding of `Agent._get_tool`: look the action name up in the derived
registry; a miss raises `AgentUnknownToolException` whose `recoverable` flag
defaults to true.  (The Python falsiness test `if not tool` is a `None`
test: a pydantic node object is always truthy.) -/
def get_tool (tools : List Tool) (action : String) : Except AgentError Tool :=
  match dictGet (tool_by_names tools) action with
  | some t => Except.ok t
  | Option.none =>
    Except.error
      { kind := AgentErrorKind.unknownTool
      , message := unknownToolMessage action
      , recoverable := true }

inductive RunnableStatus where
  | success
  | failure
deriving DecidableEq

/-- Result reported by a tool collaborator: the runnable status and the
`content` and `recoverable` fields of its output payload. -/
structure ToolRunResult where
  status : RunnableStatus
  content : String
  recoverable : Bool
deriving DecidableEq

/-- Embedding of `Agent._run_tool` given the result the tool reported: the
dependency chain is set to the tool before the status check; a non-success
status raises `ToolExecutionException` (recoverable) when the payload flag
is set and a plain `ValueError` (fatal) otherwise; on success the content
payload is returned.  (The Python code wraps the raised message in a set
literal; only the content matters here.) -/
def run_tool (tool : Tool) (toolResult : ToolRunResult) (_prevDepends : List String) :
    Except AgentError String × List String :=
  let deps := [tool.name]
  if toolResult.status = RunnableStatus.success then (Except.ok toolResult.content, deps)
  else if toolResult.recoverable then
    (Except.error { kind := AgentErrorKind.toolExecution
                  , message := toolResult.content
                  , recoverable := true }, deps)
  else
    (Except.error { kind := AgentErrorKind.valueError
                  , message := toolResult.content
                  , recoverable := false }, deps)

/-! Manager action dispatcher (`AgentManager`). -/

/-- A registered manager action.  The three built-in actions render only the
block tagged with their own name and invoke the model once on the outcome;
a dynamically added action is modelled the same way (a renderable action,
following the design of the spec). -/
structure ManagerAction where
  blockNames : List String
deriving DecidableEq

structure ManagerState where
  promptBlocks : List (String × String)
  promptVariables : List (String × String)
  intermediateSteps : List (Nat × PyValue)
  runDepends : List String
  actions : List (String × ManagerAction)

/-- Embedding of `AgentManager._init_actions`. -/
def defaultActions : List (String × ManagerAction) :=
  [("plan", { blockNames := ["plan"] }),
   ("assign", { blockNames := ["assign"] }),
   ("final", { blockNames := ["final"] })]

/-- Embedding of `AgentManager.add_action`: register under the name,
overwriting a prior registration. -/
def add_action (st : ManagerState) (name : String) (act : ManagerAction) : ManagerState :=
  { st with actions := dictUpd st.actions name act }

def sq : String := Char.toString '\''

/-- Repr of one entry of the actions dict: the key in quotes, then the value
repr; the bound-method value reprs (which carry object addresses) are elided
to a fixed placeholder. -/
def actionItemRepr (k : String) : String := sq ++ k ++ sq ++ ": <bound method>"

def actionsReprItems : List (String × ManagerAction) → String
  | [] => ""
  | [kv] => actionItemRepr kv.1
  | kv :: rest => actionItemRepr kv.1 ++ ", " ++ actionsReprItems rest

/-- Rendering of the actions dict inside the invalid-action message: the
Python f-string interpolates `repr` of the dict, which lists every key in
quotes. -/
def actionsRepr (actions : List (String × ManagerAction)) : String :=
  "\x7b" ++ actionsReprItems actions ++ "\x7d"

/-- Error of `InvalidActionException` with the message of the source
(`actionStr` is the interpolation of the action value, so the string "None"
when the key is absent). -/
def invalidActionError (actionStr : String) (actions : List (String × ManagerAction)) : AgentError :=
  { kind := AgentErrorKind.invalidAction
  , message := "Invalid or missing action: " ++ actionStr ++ ". Please choose action from " ++
               actionsRepr actions
  , recoverable := true }

/-- Reset of the run state of a manager (the `reset_run_state` call at the
start of `AgentManager.execute`). -/
def reset_manager_state (st : ManagerState) : ManagerState :=
  { st with intermediateSteps := [], runDepends := [] }

/-- Embedding of `AgentManager.execute`: reset the run state; read the
`action` key; a missing key, an empty string (falsy in the Python test
`if not action`) or an unregistered name raises `InvalidActionException`
before anything else happens; otherwise merge the input into the prompt
variables, run the selected action (render the blocks tagged with it and
invoke the model once) and wrap `{"action": ..., "result": ...}` in the
execution result.  The final `Nat` instruments the number of model
invocations performed by the call. -/
def manager_execute (st : ManagerState) (llm : String → String)
    (inputData : List (String × String)) :
    Except AgentError (PyValue × List (Nat × PyValue)) × ManagerState × Nat :=
  let st0 : ManagerState := reset_manager_state st
  match dictGet inputData "action" with
  | Option.none => (Except.error (invalidActionError "None" st0.actions), st0, 0)
  | some a =>
    if a = "" then (Except.error (invalidActionError a st0.actions), st0, 0)
    else
      match dictGet st0.actions a with
      | Option.none => (Except.error (invalidActionError a st0.actions), st0, 0)
      | some act =>
        let st1 := { st0 with promptVariables := dictUpdAll st0.promptVariables inputData }
        match generate_prompt st1.promptBlocks st1.promptVariables (some act.blockNames) [] with
        | some p =>
          let st2 := { st1 with runDepends := ["llm"] }
          (Except.ok (PyValue.dict [("action", PyValue.str a), ("result", PyValue.str (llm p))],
                      st2.intermediateSteps), st2, 1)
        | Option.none => (Except.error keyErrorFatal, st1, 0)

/-! Helper lemmas about the list-level utilities. -/

theorem isPrefixOf_append_self (p z : List Char) : p.isPrefixOf (p ++ z) = true := by
  induction p with
  | nil => simp [List.isPrefixOf]
  | cons c cs ih => simp [List.isPrefixOf, ih]

theorem hasSub_of_self_append (pat b : List Char) : hasSub pat (pat ++ b) = true := by
  cases hp : pat ++ b with
  | nil =>
    have : pat = [] := by
      cases pat with
      | nil => rfl
      | cons c cs => simp at hp
    subst this
    simp [hasSub]
  | cons c cs =>
    rw [← hp]
    cases pat with
    | nil => simp [hasSub] at hp ⊢; cases b with
      | nil => simp at hp
      | cons d ds => simp [hasSub]
    | cons p ps =>
      simp only [List.cons_append] at hp
      rw [hp] at *
      simp [hasSub, ← hp, isPrefixOf_append_self]

theorem hasSub_append_left (pat a b : List Char) (h : hasSub pat b = true) :
    hasSub pat (a ++ b) = true := by
  induction a with
  | nil => simpa using h
  | cons c cs ih => simp [hasSub, ih]

theorem splitFirst_none_of_not_hasSub (pat s : List Char) (h : hasSub pat s = false) :
    splitFirst pat s = Option.none := by
  induction s with
  | nil =>
    simp only [hasSub, List.isEmpty_eq_true] at h
    simp only [splitFirst]
    rw [if_neg]
    intro hp
    cases pat with
    | nil => simp at h
    | cons c cs => simp [List.isPrefixOf] at hp
  | cons c cs ih =>
    simp only [hasSub, Bool.or_eq_false_iff] at h
    simp only [splitFirst, h.1, Bool.false_eq_true, if_false]
    rw [ih h.2]

theorem reSearch_none_of_not_hasSub (s : List Char) (h : hasSub actionMarker s = false) :
    reSearch s = Option.none := by
  induction s with
  | nil => rfl
  | cons c cs ih =>
    simp only [hasSub, Bool.or_eq_false_iff] at h
    simp only [reSearch, h.1, Bool.false_eq_true, if_false]
    exact ih h.2

/-! Claim theorems. -/

/-- C4: rendering the prompt twice from one unchanged agent state produces
byte-identical strings, and the rendering call leaves the observable agent
state unchanged (the method mutates only a local copy of the variables). -/
theorem generate_prompt_idempotent (st : AgentState) (bn : Option (List String))
    (kw : List (String × String)) :
    (generate_prompt_method st bn kw).1
      = (generate_prompt_method (generate_prompt_method st bn kw).2 bn kw).1
    ∧ (generate_prompt_method st bn kw).2 = st :=
  ⟨rfl, rfl⟩

/-- C3 counterexample: the `tools` block with an empty tool description has
a nonempty configured template, so the rendered prompt keeps the header line
even though the substituted content is empty — refuting the claim that such
a block leaves no trace. -/
theorem generate_prompt_header_counterexample :
    generate_prompt [("tools", "{tool_description}")] [("tool_description", "")]
      Option.none [] = some "TOOLS:" := rfl

theorem renderBlocks_skip_empty_template (pre post : List (String × String)) (n : String)
    (temp : List (String × String)) (names : Option (List String)) :
    renderBlocks (pre ++ (n, "") :: post) temp names
      = renderBlocks (pre ++ post) temp names := by
  induction pre with
  | nil => simp [renderBlocks]
  | cons b rest ih =>
    obtain ⟨bn, bc⟩ := b
    simp only [List.cons_append, renderBlocks, List.append_eq]
    rw [ih]

/-- C3 amended: a block whose configured template is empty (the test `if
content` runs before substitution) is omitted from the rendered prompt with
no trace; deleting such a block from the configuration changes nothing. -/
theorem generate_prompt_omits_empty_template (pre post : List (String × String)) (n : String)
    (vars : List (String × String)) (names : Option (List String))
    (kwargs : List (String × String)) :
    generate_prompt (pre ++ (n, "") :: post) vars names kwargs
      = generate_prompt (pre ++ post) vars names kwargs := by
  unfold generate_prompt
  simp only [renderBlocks_skip_empty_template]

/-- C8 counterexample: a text in which the marker occurs only in the middle
of a line has no line beginning with the marker, yet the unanchored regex
returns the remainder instead of the empty string. -/
theorem extract_final_answer_counterexample :
    (answerMarker.isPrefixOf (("blah Answer: hi").data)
      || hasSub ('\n' :: answerMarker) (("blah Answer: hi").data)) = false
    ∧ extract_final_answer "blah Answer: hi" = "hi"
    ∧ extract_final_answer "blah Answer: hi" ≠ "" := by
  refine ⟨by decide, rfl, by decide⟩

/-- C8 amended: the answer extractor returns the stripped remainder after
the first occurrence of the marker anywhere in the text (not only at a line
start), and the empty string exactly when the marker does not occur at
all; it never fails. -/
theorem extract_final_answer_spec (s : String) :
    (hasSub answerMarker s.data = false → extract_final_answer s = "")
    ∧ (∀ b a, splitFirst answerMarker s.data = some (b, a) →
        extract_final_answer s = String.mk (pyStrip a)) := by
  constructor
  · intro h
    unfold extract_final_answer
    rw [splitFirst_none_of_not_hasSub _ _ h]
  · intro b a h
    unfold extract_final_answer
    rw [h]

theorem extract_final_answer_spec_witness :
    extract_final_answer "Thought: done\nAnswer:  42 " = "42"
    ∧ extract_final_answer "no marker here" = "" := by
  constructor
  · exact (extract_final_answer_spec "Thought: done\nAnswer:  42 ").2
      (("Thought: done\n").data) (("  42 ").data) rfl
  · exact (extract_final_answer_spec "no marker here").1 (by decide)

/-- C2: on a text without the action marker, and on a text where the search
succeeds but the captured input does not decode as structured data, the
parser raises the `ActionParsingException` whose recoverable flag is true —
it returns no value and raises nothing fatal on such inputs. -/
theorem parse_action_failure_recoverable (s : String) :
    (hasSub actionMarker s.data = false →
      parse_action s = Except.error actionParsingError)
    ∧ (∀ g1 g2, reSearch s.data = some (g1, g2) →
        jsonLoads (stripFences (pyStrip g2)) = Option.none →
        parse_action s = Except.error actionParsingError)
    ∧ actionParsingError.recoverable = true := by
  refine ⟨?_, ?_, rfl⟩
  · intro h
    unfold parse_action
    rw [reSearch_none_of_not_hasSub s.data h]
  · intro g1 g2 hre hj
    unfold parse_action
    rw [hre]
    simp only [hj]

theorem parse_action_failure_recoverable_witness :
    parse_action "I cannot find anything here" = Except.error actionParsingError
    ∧ parse_action "Action: a\nAction Input: oops" = Except.error actionParsingError := by
  constructor
  · exact (parse_action_failure_recoverable "I cannot find anything here").1 (by decide)
  · exact (parse_action_failure_recoverable "Action: a\nAction Input: oops").2.1
      (['a']) ([]) rfl rfl

/-- C5: the tool dispatcher raises the recoverable `ToolExecutionException`
exactly on a failed status whose payload flag is set, raises the fatal
`ValueError` on a failed status with the flag clear, returns the content
payload on success, and leaves the tool as the single entry of the
dependency chain. -/
theorem run_tool_spec (tool : Tool) (res : ToolRunResult) (deps : List String) :
    (res.status = RunnableStatus.failure → res.recoverable = true →
      run_tool tool res deps =
        (Except.error { kind := AgentErrorKind.toolExecution
                      , message := res.content
                      , recoverable := true }, [tool.name]))
    ∧ (res.status = RunnableStatus.failure → res.recoverable = false →
      run_tool tool res deps =
        (Except.error { kind := AgentErrorKind.valueError
                      , message := res.content
                      , recoverable := false }, [tool.name]))
    ∧ (res.status = RunnableStatus.success →
      run_tool tool res deps = (Except.ok res.content, [tool.name])) := by
  refine ⟨?_, ?_, ?_⟩ <;> intro h
  · intro h2
    simp [run_tool, h, h2]
  · intro h2
    simp [run_tool, h, h2]
  · simp [run_tool, h]

theorem run_tool_spec_witness :
    run_tool ⟨"search", "d"⟩ ⟨RunnableStatus.failure, "boom", true⟩ []
      = (Except.error { kind := AgentErrorKind.toolExecution
                      , message := "boom"
                      , recoverable := true }, ["search"])
    ∧ run_tool ⟨"search", "d"⟩ ⟨RunnableStatus.failure, "boom", false⟩ []
      = (Except.error { kind := AgentErrorKind.valueError
                      , message := "boom"
                      , recoverable := false }, ["search"])
    ∧ run_tool ⟨"search", "d"⟩ ⟨RunnableStatus.success, "found", false⟩ []
      = (Except.ok "found", ["search"]) :=
  ⟨(run_tool_spec ⟨"search", "d"⟩ ⟨RunnableStatus.failure, "boom", true⟩ []).1 rfl rfl,
   (run_tool_spec ⟨"search", "d"⟩ ⟨RunnableStatus.failure, "boom", false⟩ []).2.1 rfl rfl,
   (run_tool_spec ⟨"search", "d"⟩ ⟨RunnableStatus.success, "found", false⟩ []).2.2 rfl⟩

theorem isPrefixOf_extend (p a b : List Char) (h : p.isPrefixOf a = true) :
    p.isPrefixOf (a ++ b) = true := by
  induction p generalizing a with
  | nil => simp [List.isPrefixOf]
  | cons x xs ih =>
    cases a with
    | nil => simp [List.isPrefixOf] at h
    | cons y ys =>
      simp only [List.isPrefixOf, Bool.and_eq_true, List.cons_append] at h ⊢
      exact ⟨h.1, ih ys h.2⟩

theorem hasSub_append_right (pat a b : List Char) (h : hasSub pat a = true) :
    hasSub pat (a ++ b) = true := by
  induction a with
  | nil =>
    simp only [hasSub, List.isEmpty_eq_true] at h
    subst h
    simpa using hasSub_of_self_append [] b
  | cons c cs ih =>
    simp only [hasSub, Bool.or_eq_true, List.cons_append] at h ⊢
    rcases h with h | h
    · exact Or.inl (isPrefixOf_extend pat (c :: cs) b h)
    · exact Or.inr (ih h)

theorem dictGet_dictUpd {α : Type} (d : List (String × α)) (k : String) (v : α) (k2 : String) :
    dictGet (dictUpd d k v) k2 = if k = k2 then some v else dictGet d k2 := by
  induction d with
  | nil => by_cases h : k = k2 <;> simp [dictUpd, dictGet, h]
  | cons kv rest ih =>
    obtain ⟨k1, v1⟩ := kv
    by_cases h1 : k1 = k
    · subst h1
      by_cases h2 : k1 = k2 <;> simp [dictUpd, dictGet, h2]
    · by_cases h2 : k1 = k2
      · have h3 : ¬(k = k2) := fun hh => h1 (h2.trans hh.symm)
        simp [dictUpd, dictGet, h1, h2, h3]
        rw [if_neg (fun hh : k2 = k => h3 hh.symm)]
        simp [dictGet]
      · simp [dictUpd, dictGet, h1, h2, ih]

theorem dictGet_tool_fold (tools : List Tool) (d : List (String × Tool)) (n : String) :
    dictGet (tools.foldl (fun d t => dictUpd d t.name t) d) n
      = tools.foldl (fun a t => if t.name = n then some t else a) (dictGet d n) := by
  induction tools generalizing d with
  | nil => rfl
  | cons t ts ih =>
    simp only [List.foldl_cons]
    rw [ih, dictGet_dictUpd]

theorem foldl_pick_of_none (ts : List Tool) (n : String) (a : Option Tool)
    (h : ∀ t ∈ ts, t.name ≠ n) :
    ts.foldl (fun a t => if t.name = n then some t else a) a = a := by
  induction ts generalizing a with
  | nil => rfl
  | cons t ts ih =>
    simp only [List.foldl_cons]
    rw [if_neg (h t (by simp))]
    exact ih _ (fun t2 ht2 => h t2 (by simp [ht2]))

theorem foldl_pick_of_mem (ts : List Tool) (n : String) (a : Option Tool)
    (h : ∃ t ∈ ts, t.name = n) :
    ∃ t, ts.foldl (fun a t => if t.name = n then some t else a) a = some t
      ∧ t.name = n ∧ t ∈ ts := by
  induction ts generalizing a with
  | nil =>
    obtain ⟨t, ht, _⟩ := h
    simp at ht
  | cons t ts ih =>
    by_cases hts : ∃ t2 ∈ ts, t2.name = n
    · obtain ⟨t2, h1, h2, h3⟩ := ih (if t.name = n then some t else a) hts
      exact ⟨t2, by simpa using h1, h2, by simp [h3]⟩
    · obtain ⟨t0, ht0, hn0⟩ := h
      have hhead : t.name = n := by
        rcases List.mem_cons.mp ht0 with h | h
        · subst h; exact hn0
        · exact absurd ⟨t0, h, hn0⟩ hts
      refine ⟨t, ?_, hhead, by simp⟩
      simp only [List.foldl_cons, if_pos hhead]
      exact foldl_pick_of_none ts n (some t) (fun t2 ht2 hn2 => hts ⟨t2, ht2, hn2⟩)

/-- C6: for a name of the configured tool set the lookup returns the tool
the derived registry holds under that name, and for any other name it
raises the `AgentUnknownToolException` with `recoverable = true`, whose
message carries the guidance about using only available tool names with no
extra reasoning in the action field. -/
theorem get_tool_spec (tools : List Tool) (name : String) :
    ((∃ t ∈ tools, t.name = name) →
      ∃ t, get_tool tools name = Except.ok t ∧ t.name = name ∧ t ∈ tools)
    ∧ ((∀ t ∈ tools, t.name ≠ name) →
      get_tool tools name = Except.error
        { kind := AgentErrorKind.unknownTool
        , message := unknownToolMessage name
        , recoverable := true }
      ∧ hasSub (("Use only available tools and provide only its name in action field").data)
          ((unknownToolMessage name).data) = true
      ∧ hasSub (("Do not provide any aditional reasoning in action field").data)
          ((unknownToolMessage name).data) = true) := by
  constructor
  · intro h
    obtain ⟨t, hfold, hn, hmem⟩ :=
      foldl_pick_of_mem tools name Option.none h
    refine ⟨t, ?_, hn, hmem⟩
    unfold get_tool tool_by_names
    rw [dictGet_tool_fold]
    simp only [dictGet]
    rw [hfold]
  · intro h
    have hfold := foldl_pick_of_none tools name Option.none h
    have hget : get_tool tools name = Except.error
        { kind := AgentErrorKind.unknownTool
        , message := unknownToolMessage name
        , recoverable := true } := by
      unfold get_tool tool_by_names
      rw [dictGet_tool_fold]
      simp only [dictGet]
      rw [hfold]
    have hdata : (unknownToolMessage name).data
        = ("Unknown tool: " ++ name).data ++ unknownToolMessageTail.data := by
      unfold unknownToolMessage
      rw [← String.data_append]
    refine ⟨hget, ?_, ?_⟩
    · rw [hdata]
      exact hasSub_append_left _ _ _ (by decide)
    · rw [hdata]
      exact hasSub_append_left _ _ _ (by decide)

theorem get_tool_spec_witness :
    (∃ t, get_tool [⟨"search", "find things"⟩] "search" = Except.ok t
      ∧ t.name = "search" ∧ t ∈ [(⟨"search", "find things"⟩ : Tool)])
    ∧ (get_tool [⟨"search", "find things"⟩] "fly" = Except.error
        { kind := AgentErrorKind.unknownTool
        , message := unknownToolMessage "fly"
        , recoverable := true }
      ∧ hasSub (("Use only available tools and provide only its name in action field").data)
          ((unknownToolMessage "fly").data) = true
      ∧ hasSub (("Do not provide any aditional reasoning in action field").data)
          ((unknownToolMessage "fly").data) = true) :=
  ⟨(get_tool_spec [⟨"search", "find things"⟩] "search").1
      ⟨⟨"search", "find things"⟩, by simp, rfl⟩,
   (get_tool_spec [⟨"search", "find things"⟩] "fly").2 (by decide)⟩

/-- C10: when the configured tool list holds two tools of one name, the
per-lookup rebuilt registry lets the later entry overwrite the earlier one,
so the lookup succeeds and returns the tool occurring last in the list under
that name. -/
theorem get_tool_duplicate_last_wins (ts1 ts2 ts3 : List Tool) (t1 t2 : Tool)
    (_h12 : t1.name = t2.name) (h3 : ∀ t ∈ ts3, t.name ≠ t2.name) :
    get_tool (ts1 ++ t1 :: ts2 ++ t2 :: ts3) t2.name = Except.ok t2 := by
  have key : List.foldl (fun a t => if t.name = t2.name then some t else a) Option.none
      (ts1 ++ t1 :: ts2 ++ t2 :: ts3) = some t2 := by
    simp only [List.foldl_append, List.foldl_cons, if_true]
    exact foldl_pick_of_none ts3 t2.name (some t2) h3
  unfold get_tool tool_by_names
  rw [dictGet_tool_fold]
  simp only [dictGet]
  rw [key]

theorem get_tool_duplicate_last_wins_witness :
    get_tool [⟨"a", "first"⟩, ⟨"a", "second"⟩] "a" = Except.ok ⟨"a", "second"⟩ :=
  get_tool_duplicate_last_wins [] [] [] ⟨"a", "first"⟩ ⟨"a", "second"⟩ rfl
    (by intro t ht; simp at ht)

theorem hasSub_self_actionItemRepr (k : String) :
    hasSub k.data ((actionItemRepr k).data) = true := by
  unfold actionItemRepr
  simp only [String.data_append, List.append_assoc]
  exact hasSub_append_left _ _ _ (hasSub_of_self_append _ _)

theorem hasSub_key_actionsReprItems (actions : List (String × ManagerAction)) (k : String)
    (h : ∃ a, (k, a) ∈ actions) :
    hasSub k.data ((actionsReprItems actions).data) = true := by
  induction actions with
  | nil =>
    obtain ⟨a, ha⟩ := h
    simp at ha
  | cons kv rest ih =>
    cases rest with
    | nil =>
      obtain ⟨a, ha⟩ := h
      simp only [List.mem_singleton] at ha
      have hk : kv.1 = k := by rw [← ha]
      unfold actionsReprItems
      rw [hk]
      exact hasSub_self_actionItemRepr k
    | cons kv2 rest2 =>
      obtain ⟨a, ha⟩ := h
      rcases List.mem_cons.mp ha with hh | hh
      · have hk : kv.1 = k := by rw [← hh]
        show hasSub k.data ((actionItemRepr kv.1 ++ ", " ++ actionsReprItems (kv2 :: rest2)).data)
          = true
        rw [hk]
        simp only [String.data_append, List.append_assoc]
        exact hasSub_append_right _ _ _ (hasSub_self_actionItemRepr k)
      · show hasSub k.data ((actionItemRepr kv.1 ++ ", " ++ actionsReprItems (kv2 :: rest2)).data)
          = true
        simp only [String.data_append, List.append_assoc]
        exact hasSub_append_left _ _ _ (hasSub_append_left _ _ _ (ih ⟨a, hh⟩))

theorem invalidActionError_lists_actions (aStr : String)
    (actions : List (String × ManagerAction)) (k : String) (h : ∃ a, (k, a) ∈ actions) :
    hasSub k.data (((invalidActionError aStr actions).message).data) = true := by
  unfold invalidActionError actionsRepr
  simp only [String.data_append, List.append_assoc]
  exact hasSub_append_left _ _ _ (hasSub_append_left _ _ _ (hasSub_append_left _ _ _
    (hasSub_append_left _ _ _ (hasSub_append_right _ _ _
      (hasSub_key_actionsReprItems actions k h)))))

/-- C7 amended: a missing `action` key, an empty action name (falsy in the
Python test even when registered) and an unregistered name each raise the
recoverable `InvalidActionException` whose message lists every registered
action, with no model invocation; a registered nonempty action whose block
rendering succeeds is run exactly once and the execution result wraps
`{"action": ..., "result": ...}`. -/
theorem manager_execute_dispatch (st : ManagerState) (llm : String → String)
    (input : List (String × String)) :
    (dictGet input "action" = Option.none →
      manager_execute st llm input
        = (Except.error (invalidActionError "None" st.actions), reset_manager_state st, 0))
    ∧ (∀ a, dictGet input "action" = some a →
        (a = "" ∨ dictGet st.actions a = Option.none) →
      manager_execute st llm input
        = (Except.error (invalidActionError a st.actions), reset_manager_state st, 0))
    ∧ (∀ a act p, dictGet input "action" = some a → ¬(a = "") →
        dictGet st.actions a = some act →
        generate_prompt st.promptBlocks (dictUpdAll st.promptVariables input)
          (some act.blockNames) [] = some p →
      manager_execute st llm input
        = (Except.ok (PyValue.dict [("action", PyValue.str a), ("result", PyValue.str (llm p))],
             ([] : List (Nat × PyValue))),
           { st with intermediateSteps := ([] : List (Nat × PyValue))
                   , runDepends := ["llm"]
                   , promptVariables := dictUpdAll st.promptVariables input }, 1))
    ∧ (∀ aStr k, (∃ act, (k, act) ∈ st.actions) →
      hasSub k.data (((invalidActionError aStr st.actions).message).data) = true) := by
  refine ⟨?_, ?_, ?_, ?_⟩
  · intro h
    unfold manager_execute
    rw [h]
    rfl
  · intro a h hcase
    unfold manager_execute
    rw [h]
    by_cases ha : a = ""
    · subst ha
      rfl
    · rcases hcase with hc | hc
      · exact absurd hc ha
      · have hc2 : dictGet (reset_manager_state st).actions a = Option.none := hc
        simp only [if_neg ha, hc2]
        rfl
  · intro a act p h ha hact hp
    unfold manager_execute
    rw [h]
    have hact2 : dictGet (reset_manager_state st).actions a = some act := hact
    have hp2 : generate_prompt (reset_manager_state st).promptBlocks
        (dictUpdAll (reset_manager_state st).promptVariables input)
        (some act.blockNames) [] = some p := hp
    simp only [if_neg ha, hact2, hp2]
    rfl
  · intro aStr k hk
    exact invalidActionError_lists_actions aStr st.actions k hk

theorem manager_execute_dispatch_witness :
    manager_execute ⟨[("plan", "Plan for: {task}")], [("task", "")], [], [], defaultActions⟩
      (fun p => "PLANNED " ++ p) [("action", "plan"), ("task", "demo")]
      = (Except.ok (PyValue.dict [("action", PyValue.str "plan"),
            ("result", PyValue.str ("PLANNED " ++ "PLAN:\nPlan for: demo"))],
           ([] : List (Nat × PyValue))),
         ⟨[("plan", "Plan for: {task}")], [("task", "demo"), ("action", "plan")],
          [], ["llm"], defaultActions⟩, 1)
    ∧ manager_execute ⟨[], [], [], [], defaultActions⟩ (fun _ => "x") []
      = (Except.error (invalidActionError "None" defaultActions),
         ⟨[], [], [], [], defaultActions⟩, 0)
    ∧ manager_execute ⟨[], [], [], [], defaultActions⟩ (fun _ => "x") [("action", "fly")]
      = (Except.error (invalidActionError "fly" defaultActions),
         ⟨[], [], [], [], defaultActions⟩, 0) := by
  refine ⟨?_, ?_, ?_⟩
  · exact (manager_execute_dispatch
      ⟨[("plan", "Plan for: {task}")], [("task", "")], [], [], defaultActions⟩
      (fun p => "PLANNED " ++ p) [("action", "plan"), ("task", "demo")]).2.2.1
      "plan" ⟨["plan"]⟩ "PLAN:\nPlan for: demo" rfl (by decide) rfl rfl
  · exact (manager_execute_dispatch ⟨[], [], [], [], defaultActions⟩ (fun _ => "x") []).1 rfl
  · exact (manager_execute_dispatch ⟨[], [], [], [], defaultActions⟩ (fun _ => "x")
      [("action", "fly")]).2.1 "fly" rfl (Or.inr rfl)

/-- C7 counterexample: a custom action registered under the empty name is
among the registered actions, yet `execute` raises the invalid-action error
without invoking it (the Python guard `if not action` tests falsiness, not
membership), refuting the claim that every registered action is invoked. -/
theorem manager_execute_empty_name_counterexample :
    dictGet (dictUpd defaultActions "" ⟨["extra"]⟩) "" = some ⟨["extra"]⟩
    ∧ manager_execute ⟨[], [], [], [], dictUpd defaultActions "" ⟨["extra"]⟩⟩
        (fun _ => "out") [("action", "")]
      = (Except.error (invalidActionError "" (dictUpd defaultActions "" ⟨["extra"]⟩)),
         ⟨[], [], [], [], dictUpd defaultActions "" ⟨["extra"]⟩⟩, 0) :=
  ⟨rfl, rfl⟩

theorem dictGet_none_of_not_mem_keys {α : Type} (kvs : List (String × α)) (k : String)
    (h : k ∉ kvs.map Prod.fst) : dictGet kvs k = Option.none := by
  induction kvs with
  | nil => rfl
  | cons kv rest ih =>
    obtain ⟨k1, v1⟩ := kv
    simp only [List.map_cons, List.mem_cons] at h
    push_neg at h
    have h1 : ¬(k1 = k) := fun hh => h.1 hh.symm
    simp [dictGet, h1, ih h.2]

theorem dictGet_updAll_of_none {α : Type} (kvs : List (String × α)) (k : String)
    (h : dictGet kvs k = Option.none) :
    ∀ d, dictGet (dictUpdAll d kvs) k = dictGet d k := by
  induction kvs with
  | nil => intro d; rfl
  | cons kv rest ih =>
    obtain ⟨k1, v1⟩ := kv
    intro d
    have h1 : ¬(k1 = k) := by
      intro hh
      simp [dictGet, hh] at h
    have h2 : dictGet rest k = Option.none := by simpa [dictGet, h1] using h
    show dictGet (dictUpdAll (dictUpd d k1 v1) rest) k = dictGet d k
    rw [ih h2 (dictUpd d k1 v1), dictGet_dictUpd, if_neg h1]

theorem dictGet_updAll_of_some {α : Type} (kvs : List (String × α)) (k : String) (v : α)
    (hn : (kvs.map Prod.fst).Nodup) (h : dictGet kvs k = some v) :
    ∀ d, dictGet (dictUpdAll d kvs) k = some v := by
  induction kvs with
  | nil => simp [dictGet] at h
  | cons kv rest ih =>
    obtain ⟨k1, v1⟩ := kv
    intro d
    simp only [List.map_cons, List.nodup_cons] at hn
    by_cases h1 : k1 = k
    · subst h1
      have hv : v1 = v := by simpa [dictGet] using h
      subst hv
      have hrest : dictGet rest k1 = Option.none :=
        dictGet_none_of_not_mem_keys rest k1 hn.1
      show dictGet (dictUpdAll (dictUpd d k1 v1) rest) k1 = some v1
      rw [dictGet_updAll_of_none rest k1 hrest (dictUpd d k1 v1), dictGet_dictUpd, if_pos rfl]
    · have h2 : dictGet rest k = some v := by simpa [dictGet, h1] using h
      show dictGet (dictUpdAll (dictUpd d k1 v1) rest) k = some v
      exact ih hn.2 h2 (dictUpd d k1 v1)

theorem agent_execute_vars (st : AgentState) (llm : String → String)
    (input : List (String × String)) :
    ((agent_execute st llm input).2).promptVariables = dictUpdAll st.promptVariables input := by
  unfold agent_execute reset_run_state
  dsimp only []
  split <;> rfl

/-- C9: `execute` merges the input data into the stored prompt variables for
good: the reset at the start of every call clears only the step collection
and the dependency chain, so a merged binding survives into the state after
the call, survives a further `execute` whose input does not rebind it, and
is part of the variable map against which that later call renders its
prompt. -/
theorem agent_execute_variable_persistence (st : AgentState) (llm : String → String)
    (in1 in2 : List (String × String)) (k : String) (v : String)
    (hn : (in1.map Prod.fst).Nodup)
    (h1 : dictGet in1 k = some v) (h2 : dictGet in2 k = Option.none) :
    dictGet ((agent_execute st llm in1).2).promptVariables k = some v
    ∧ (reset_run_state ((agent_execute st llm in1).2)).promptVariables
        = ((agent_execute st llm in1).2).promptVariables
    ∧ (reset_run_state ((agent_execute st llm in1).2)).intermediateSteps = []
    ∧ (reset_run_state ((agent_execute st llm in1).2)).runDepends = []
    ∧ dictGet (dictUpdAll ((agent_execute st llm in1).2).promptVariables in2) k = some v
    ∧ dictGet ((agent_execute ((agent_execute st llm in1).2) llm in2).2).promptVariables k
        = some v := by
  have hv1 : dictGet ((agent_execute st llm in1).2).promptVariables k = some v := by
    rw [agent_execute_vars st llm in1]
    exact dictGet_updAll_of_some in1 k v hn h1 st.promptVariables
  have hv2 : dictGet (dictUpdAll ((agent_execute st llm in1).2).promptVariables in2) k
      = some v := by
    rw [dictGet_updAll_of_none in2 k h2 ((agent_execute st llm in1).2).promptVariables]
    exact hv1
  refine ⟨hv1, rfl, rfl, rfl, hv2, ?_⟩
  rw [agent_execute_vars _ llm in2]
  exact hv2

theorem agent_execute_variable_persistence_witness :
    dictGet ((agent_execute ⟨[("request", "User request: {input}")], [], [], []⟩
        (fun p => p) [("input", "hi")]).2).promptVariables "input" = some "hi"
    ∧ (reset_run_state ((agent_execute ⟨[("request", "User request: {input}")], [], [], []⟩
        (fun p => p) [("input", "hi")]).2)).promptVariables
        = ((agent_execute ⟨[("request", "User request: {input}")], [], [], []⟩
        (fun p => p) [("input", "hi")]).2).promptVariables
    ∧ (reset_run_state ((agent_execute ⟨[("request", "User request: {input}")], [], [], []⟩
        (fun p => p) [("input", "hi")]).2)).intermediateSteps = []
    ∧ (reset_run_state ((agent_execute ⟨[("request", "User request: {input}")], [], [], []⟩
        (fun p => p) [("input", "hi")]).2)).runDepends = []
    ∧ dictGet (dictUpdAll ((agent_execute ⟨[("request", "User request: {input}")], [], [], []⟩
        (fun p => p) [("input", "hi")]).2).promptVariables []) "input" = some "hi"
    ∧ dictGet ((agent_execute ((agent_execute ⟨[("request", "User request: {input}")], [], [], []⟩
        (fun p => p) [("input", "hi")]).2) (fun p => p) []).2).promptVariables "input"
        = some "hi" :=
  agent_execute_variable_persistence ⟨[("request", "User request: {input}")], [], [], []⟩
    (fun p => p) [("input", "hi")] [] "input" "hi" (by decide) rfl rfl

/-! Helper lemmas for the well-formed action grammar (claim C1). -/

theorem takeWhile_append_of_not_all (p : Char → Bool) (a b : List Char)
    (h : a.all p = false) : (a ++ b).takeWhile p = a.takeWhile p := by
  induction a with
  | nil => simp at h
  | cons c cs ih =>
    by_cases hc : p c
    · simp only [List.all_cons, hc, Bool.true_and] at h
      simp [List.takeWhile_cons, hc, ih h]
    · simp [List.takeWhile_cons, hc]

theorem dropWhile_append_of_all (p : Char → Bool) (a b : List Char)
    (h : a.all p = true) : (a ++ b).dropWhile p = b.dropWhile p := by
  induction a with
  | nil => rfl
  | cons c cs ih =>
    simp only [List.all_cons, Bool.and_eq_true] at h
    simp [List.dropWhile_cons, h.1, ih h.2]

theorem drop_length_takeWhile (p : Char → Bool) (l : List Char) :
    l.drop ((l.takeWhile p).length) = l.dropWhile p := by
  induction l with
  | nil => rfl
  | cons c cs ih =>
    by_cases hc : p c <;> simp [List.takeWhile_cons, List.dropWhile_cons, hc, ih]

theorem dropWhile_dropWhile (p : Char → Bool) (l : List Char) :
    (l.dropWhile p).dropWhile p = l.dropWhile p := by
  induction l with
  | nil => rfl
  | cons c cs ih => by_cases hc : p c <;> simp [List.dropWhile_cons, hc, ih]

theorem pyStrip_dropWhile (l : List Char) :
    pyStrip (l.dropWhile isPySpace) = pyStrip l := by
  unfold pyStrip
  rw [dropWhile_dropWhile]

theorem lazyUpToTail_append (a0 b : List Char) (hb : '}' ∉ b) :
    lazyUpToTail ((a0 ++ ['}']) ++ b) = a0 ++ ['}'] := by
  unfold lazyUpToTail
  rw [List.reverse_append, List.reverse_append]
  have hall : (b.reverse).all (fun c => !(c == '}')) = true := by
    rw [List.all_eq_true]
    intro x hx
    have hxb : x ∈ b := List.mem_reverse.mp hx
    have : ¬(x = '}') := fun hh => hb (hh ▸ hxb)
    simp [this]
  rw [dropWhile_append_of_all _ _ _ hall]
  simp [List.dropWhile_cons]

theorem splitFirst_boundary (hd : Char) (pt a z : List Char) (h : hd ∉ a) :
    splitFirst (hd :: pt) (a ++ ((hd :: pt) ++ z)) = some (a, z) := by
  induction a with
  | nil =>
    simp only [List.nil_append]
    show splitFirst (hd :: pt) ((hd :: pt) ++ z) = some ([], z)
    have hpre : (hd :: pt).isPrefixOf ((hd :: pt) ++ z) = true := isPrefixOf_append_self _ _
    cases hcz : (hd :: pt) ++ z with
    | nil => simp at hcz
    | cons c cs =>
      rw [← hcz]
      rw [hcz]
      simp only [splitFirst]
      rw [← hcz, if_pos hpre, List.drop_left]
  | cons c a2 ih =>
    have hne : ¬(c = hd) := fun hh => h (by simp [hh])
    have h2 : hd ∉ a2 := fun hh => h (by simp [hh])
    simp only [List.cons_append, splitFirst]
    rw [if_neg ?_]
    · simp only [List.append_eq]
      rw [← List.cons_append hd pt z, ih h2]
    · intro hp
      simp only [List.isPrefixOf, Bool.and_eq_true, beq_iff_eq] at hp
      exact hne hp.1.symm

theorem tryWs_hit (s : List Char) (k : Nat) (r : List Char × List Char)
    (h : splitFirst inputMarker (s.drop k) = some r) : tryWs s k = some r := by
  cases k with
  | zero => simpa [tryWs] using h
  | succ k => simp [tryWs, h]

theorem length_takeWhile_le_self (p : Char → Bool) (l : List Char) :
    (l.takeWhile p).length ≤ l.length := by
  induction l with
  | nil => simp
  | cons c cs ih =>
    by_cases hc : p c
    · simp only [List.takeWhile_cons, hc, if_true, List.length_cons]
      exact Nat.succ_le_succ ih
    · simp [List.takeWhile_cons, hc]

theorem group1Split_boundary (name z : List Char)
    (hnl : '\n' ∉ name) (hnws : name.all isPySpace = false) :
    group1Split (name ++ (inputMarker ++ z))
      = some (name.dropWhile isPySpace, z) := by
  unfold group1Split
  have htw : ((name ++ (inputMarker ++ z)).takeWhile isPySpace) = name.takeWhile isPySpace :=
    takeWhile_append_of_not_all isPySpace name (inputMarker ++ z) hnws
  rw [htw]
  apply tryWs_hit
  have hlen : (name.takeWhile isPySpace).length ≤ name.length :=
    length_takeWhile_le_self isPySpace name
  have hdrop : (name ++ (inputMarker ++ z)).drop ((name.takeWhile isPySpace).length)
      = (name.drop ((name.takeWhile isPySpace).length)) ++ (inputMarker ++ z) :=
    List.drop_append_of_le_length hlen
  rw [hdrop, drop_length_takeWhile]
  have hmem : '\n' ∉ name.dropWhile isPySpace :=
    fun hm => hnl ((List.dropWhile_sublist _).mem hm)
  exact splitFirst_boundary '\n' (("Action Input:").data) (name.dropWhile isPySpace) z hmem

theorem group2Of_exact (ws body tail : List Char)
    (hws : ws.all isPySpace = true) (htail : '}' ∉ tail) :
    group2Of (ws ++ (('{' :: (body ++ ['}'])) ++ tail)) = '{' :: (body ++ ['}']) := by
  unfold group2Of
  have hbrace : isPySpace '{' = false := rfl
  have hdw : (ws ++ (('{' :: (body ++ ['}'])) ++ tail)).dropWhile isPySpace
      = '{' :: ((body ++ ['}']) ++ tail) := by
    rw [dropWhile_append_of_all _ _ _ hws]
    simp [List.dropWhile_cons, hbrace]
  rw [hdw]
  cases body with
  | nil =>
    have hpre : (['{', '\n'] : List Char).isPrefixOf ('{' :: (([] ++ ['}']) ++ tail)) = false := by
      simp [List.isPrefixOf]
    rw [if_neg (by simp only [hpre]; exact fun hh => Bool.noConfusion hh)]
    have := lazyUpToTail_append ['{'] tail htail
    simpa using this
  | cons c b2 =>
    by_cases hc : c = '\n'
    · subst hc
      have hpre : (['{', '\n'] : List Char).isPrefixOf
          ('{' :: ((('\n' :: b2) ++ ['}']) ++ tail)) = true := by
        simp [List.isPrefixOf]
      rw [if_pos hpre]
      have hdrop2 : ('{' :: ((('\n' :: b2) ++ ['}']) ++ tail)).drop 2
          = (b2 ++ ['}']) ++ tail := by simp
      rw [hdrop2, lazyUpToTail_append b2 tail htail]
      simp
    · have hpre : (['{', '\n'] : List Char).isPrefixOf
          ('{' :: (((c :: b2) ++ ['}']) ++ tail)) = false := by
        simp only [List.isPrefixOf, List.cons_append, Bool.and_eq_false_iff]
        right
        left
        simp [beq_eq_false_iff_ne]
        exact fun hh => hc hh.symm
      rw [if_neg (by simp only [hpre]; exact fun hh => Bool.noConfusion hh)]
      have := lazyUpToTail_append ('{' :: c :: b2) tail htail
      simpa using this

theorem reSearch_of_splitFirst (s : List Char) (b r g1 rest : List Char)
    (h1 : splitFirst actionMarker s = some (b, r))
    (h2 : group1Split r = some (g1, rest)) :
    reSearch s = some (g1, group2Of rest) := by
  induction s generalizing b with
  | nil =>
    rw [show splitFirst actionMarker ([] : List Char) = Option.none from rfl] at h1
    exact Option.noConfusion h1
  | cons c cs ih =>
    by_cases hp : actionMarker.isPrefixOf (c :: cs) = true
    · simp only [splitFirst, if_pos hp, Option.some.injEq, Prod.mk.injEq] at h1
      obtain ⟨hb, hr⟩ := h1
      simp only [reSearch, if_pos hp]
      rw [hr, h2]
    · simp only [splitFirst, if_neg hp] at h1
      cases hcs : splitFirst actionMarker cs with
      | none =>
        rw [hcs] at h1
        exact Option.noConfusion h1
      | some pr =>
        obtain ⟨b2, a2⟩ := pr
        rw [hcs] at h1
        simp only [Option.some.injEq, Prod.mk.injEq] at h1
        obtain ⟨hb, hr⟩ := h1
        rw [hr] at hcs
        simp only [reSearch, if_neg hp]
        exact ih b2 hcs

/-- C1 counterexample: a text of the claim grammar — an action line, then a
valid JSON object as action input, then trailing non-JSON text — on which
the parser raises instead of returning the decoded structure, because the
regex extends the captured input to the last brace of the whole text. -/
theorem parse_action_counterexample :
    jsonLoads (("\x7b\"x\": 1\x7d").data) = some (PyValue.dict [("x", PyValue.int 1)])
    ∧ parse_action "Action: a\nAction Input: \x7b\"x\": 1\x7d\nObservation: \x7boops\x7d"
      = Except.error actionParsingError :=
  ⟨rfl, rfl⟩

/-- C1 amended: for a text made of a preamble (whose end the first
occurrence of the action marker follows), an action name without newline
and with visible content, the input marker, whitespace, a brace-delimited
input and a trailing part without closing braces, the parser returns
exactly the stripped action name and the structure decoded from the input
segment (fence stripping included). -/
theorem parse_action_wellformed
    (pre name ws body tail : List Char) (v : PyValue)
    (hfirst : splitFirst actionMarker
        (pre ++ (actionMarker ++ (name ++ (inputMarker ++ (ws ++ (('{' :: (body ++ ['}'])) ++ tail))))))
      = some (pre, name ++ (inputMarker ++ (ws ++ (('{' :: (body ++ ['}'])) ++ tail)))))
    (hnl : '\n' ∉ name) (hns : pyStrip name ≠ [])
    (hws : ws.all isPySpace = true) (htail : '}' ∉ tail)
    (hjson : jsonLoads (stripFences (pyStrip ('{' :: (body ++ ['}'])))) = some v) :
    parse_action (String.mk
        (pre ++ (actionMarker ++ (name ++ (inputMarker ++ (ws ++ (('{' :: (body ++ ['}'])) ++ tail)))))))
      = Except.ok (String.mk (pyStrip name), v) := by
  have hnws : name.all isPySpace = false := by
    cases hall : name.all isPySpace
    · rfl
    · exfalso
      apply hns
      have hd : name.dropWhile isPySpace = [] := by
        rw [List.dropWhile_eq_nil_iff]
        intro x hx
        exact (List.all_eq_true.mp hall) x hx
      unfold pyStrip
      rw [hd]
      rfl
  have hg1 : group1Split (name ++ (inputMarker ++ (ws ++ (('{' :: (body ++ ['}'])) ++ tail))))
      = some (name.dropWhile isPySpace, ws ++ (('{' :: (body ++ ['}'])) ++ tail)) :=
    group1Split_boundary name (ws ++ (('{' :: (body ++ ['}'])) ++ tail)) hnl hnws
  have hre : reSearch
      (pre ++ (actionMarker ++ (name ++ (inputMarker ++ (ws ++ (('{' :: (body ++ ['}'])) ++ tail))))))
      = some (name.dropWhile isPySpace,
              group2Of (ws ++ (('{' :: (body ++ ['}'])) ++ tail))) :=
    reSearch_of_splitFirst _ pre _ _ _ hfirst hg1
  rw [group2Of_exact ws body tail hws htail] at hre
  unfold parse_action
  have hdata : (String.mk
      (pre ++ (actionMarker ++ (name ++ (inputMarker ++ (ws ++ (('{' :: (body ++ ['}'])) ++ tail))))))).data
      = pre ++ (actionMarker ++ (name ++ (inputMarker ++ (ws ++ (('{' :: (body ++ ['}'])) ++ tail))))) := rfl
  rw [hdata, hre]
  simp only [hjson, pyStrip_dropWhile]

theorem parse_action_wellformed_witness :
    parse_action "Thought: let me look\nAction: search\nAction Input: \x7b\"q\": \"x\"\x7d"
      = Except.ok ("search", PyValue.dict [("q", PyValue.str "x")]) := by
  have h := parse_action_wellformed (("Thought: let me look\n").data) ((" search").data)
    ([' ']) (("\"q\": \"x\"").data) ([]) (PyValue.dict [("q", PyValue.str "x")])
    rfl (by decide) (by decide) (by decide) (by decide) rfl
  exact h

end Dynamiq
